import Mathlib

set_option linter.unusedVariables false

/-!
Shallow embedding of src/src/common/formatter.cpp (littlenavmap).

External collaborators (Qt locale services, atools helpers) are not part of
src/, so they are modelled from the spec as abstract function parameters or,
where the spec fixes their behaviour, as explicit definitions marked
"Modelled from the spec".  Doubles are modelled as rationals, C ints as ℤ,
QString as the Lean String (a wrapper around List Char).
-/

/-- Whitespace test used by QString::simplified.  Modelled from the spec:
the locale service treats the ASCII space class (space, tab, newline,
vertical tab, form feed, carriage return) as whitespace. -/
def isSpc (c : Char) : Bool :=
  c = ' ' || c = '\t' || c = '\n' || c = '\x0b' || c = '\x0c' || c = '\r'

/-- Core of QString::simplified: collapse every whitespace run to a single
space and drop a trailing run entirely.  A leading run collapses to one
leading space, removed by `simplifiedL` below. -/
def simpAux : List Char → List Char
  | [] => []
  | c :: cs =>
    if isSpc c then
      match simpAux cs with
      | [] => []
      | d :: r => if d = ' ' then d :: r else ' ' :: d :: r
    else c :: simpAux cs

/-- QString::simplified on the character list: interior whitespace runs
collapsed to single spaces, both ends trimmed. -/
def simplifiedL (l : List Char) : List Char :=
  match simpAux l with
  | [] => []
  | c :: r => if c = ' ' then r else c :: r

/-- QString::simplified (formatter.cpp line 246: str = str.simplified()). -/
def simplified (s : String) : String :=
  String.mk (simplifiedL s.data)

/-- Well-formedness of a simplified tail: every whitespace character is a
plain space immediately followed by a non-space, and the list does not end
in whitespace. -/
def goodRun : List Char → Bool
  | [] => true
  | [c] => !isSpc c
  | c :: d :: rest => (!isSpc c || (c = ' ' && !isSpc d)) && goodRun (d :: rest)

/-- Does `pat` occur at the head of `l`?  (Building block of QString
substring search.) -/
def startsWithL (pat l : List Char) : Bool :=
  l.take pat.length == pat

/-- Does `pat` occur anywhere in `l`?  (QString::contains for plain
strings.) -/
def occursL (pat : List Char) : List Char → Bool
  | [] => pat == []
  | c :: cs => startsWithL pat (c :: cs) || occursL pat cs

/-- QString::endsWith on character lists. -/
def endsWithL (l pat : List Char) : Bool :=
  List.drop (l.length - pat.length) l == pat

/-- QString::endsWith (used at formatter.cpp line 225: t.endsWith("t")). -/
def qtEndsWith (s suf : String) : Bool :=
  endsWithL s.data suf.data

/-- QString::replace(QObject::tr("UTC"), "") specialised to the fixed
pattern: remove every occurrence of "UTC", scanning left to right and
continuing after each removed occurrence (formatter.cpp line 134). -/
def removeUTC : List Char → List Char
  | 'U' :: 'T' :: 'C' :: rest => removeUTC rest
  | c :: cs => c :: removeUTC cs
  | [] => []

/-- QString::replace("yyyy", "yy") specialised to the fixed pattern:
replace every occurrence of "yyyy" by "yy", scanning left to right and
continuing after each replacement (formatter.cpp line 185). -/
def demoteYYYY : List Char → List Char
  | 'y' :: 'y' :: 'y' :: 'y' :: rest => 'y' :: 'y' :: demoteYYYY rest
  | c :: cs => c :: demoteYYYY cs
  | [] => []

/-- QString::replace("yy", "yyyy") specialised to the fixed pattern:
replace every occurrence of "yy" by "yyyy", scanning left to right and
continuing after each replacement (formatter.cpp line 187). -/
def promoteAllYY : List Char → List Char
  | 'y' :: 'y' :: rest => 'y' :: 'y' :: 'y' :: 'y' :: promoteAllYY rest
  | c :: cs => c :: promoteAllYY cs
  | [] => []

/-- Word character of the regular expression engine: the default
QRegularExpression word class is ASCII letters, digits and underscore. -/
def isWordChar (c : Char) : Bool :=
  c.isAlpha || c.isDigit || c = '_'

/-- Word boundary on the left of a match, given the character preceding the
match position (none at the start of the subject). -/
def byyBefore : Option Char → Bool
  | none => true
  | some p => !isWordChar p

/-- Word boundary on the right of a match, given the remainder of the
subject after the match. -/
def byyAfter : List Char → Bool
  | [] => true
  | r :: _ => !isWordChar r

/-- QString::contains(QRegularExpression("\byy\b")) (formatter.cpp line
186): scan for an occurrence of "yy" delimited by word boundaries; `prev`
is the character preceding the current position. -/
def hasBYYB (prev : Option Char) : List Char → Bool
  | 'y' :: 'y' :: rest =>
    (byyBefore prev && byyAfter rest) || hasBYYB (some 'y') ('y' :: rest)
  | c :: cs => hasBYYB (some c) cs
  | [] => false

/-- Checker stating that every occurrence of "yy" met by a left-to-right
non-overlapping scan is delimited by word boundaries. -/
def allBYY (prev : Option Char) : List Char → Bool
  | 'y' :: 'y' :: rest =>
    (byyBefore prev && byyAfter rest) && allBYY (some 'y') rest
  | c :: cs => allBYY (some c) cs
  | [] => true

/-- Promotion of "yy" to "yyyy" restricted to word-boundary occurrences:
this is the replacement described by the words of claim C4 (only a token
matched at word boundaries is promoted); non-boundary occurrences are left
unchanged and the scan continues after a failed match position. -/
def promoteBYY (prev : Option Char) : List Char → List Char
  | 'y' :: 'y' :: rest =>
    if byyBefore prev && byyAfter rest then
      'y' :: 'y' :: 'y' :: 'y' :: promoteBYY (some 'y') rest
    else
      'y' :: promoteBYY (some 'y') ('y' :: rest)
  | c :: cs => c :: promoteBYY (some c) cs
  | [] => []

/-- C++ static_cast<int> applied to a double: truncation toward zero. -/
def cppIntCast (q : ℚ) : ℤ :=
  if 0 ≤ q then ⌊q⌋ else ⌈q⌉

/-- Modelled from the spec: atools::roundToInt is not under src/; the spec
fixes minute rounding as round half away from zero. -/
def roundToInt (q : ℚ) : ℤ :=
  if 0 ≤ q then ⌊q + 1/2⌋ else ⌈q - 1/2⌉

/-- Minute value computed by the duration formatters before any carry:
round half away from zero of the fractional hour times sixty. -/
def uncarriedMinutes (time : ℚ) : ℤ :=
  roundToInt ((time - (cppIntCast time : ℚ)) * 60)

/-- QString::arg(n, 2, 10, QChar('0')): decimal rendering padded on the
left with '0' to a field width of two. -/
def argPad2 (n : ℤ) : String :=
  let s := toString n
  String.mk (List.replicate (2 - s.length) '0') ++ s

/-- formatter.cpp lines 37..48 (formatMinutesHours).  `localeNum` is the
locale digit shaping QLocale().toString, modelled from the spec as an
abstract parameter. -/
def formatMinutesHours (localeNum : ℤ → String) (time : ℚ) : String :=
  let hours := cppIntCast time
  let minutes := roundToInt ((time - (hours : ℚ)) * 60)
  let hm := if minutes = 60 then (hours + 1, (0 : ℤ)) else (hours, minutes)
  localeNum hm.1 ++ ":" ++ argPad2 hm.2

/-- formatter.cpp lines 50..62 (formatMinutesHoursLong). -/
def formatMinutesHoursLong (localeNum : ℤ → String) (time : ℚ) : String :=
  let hours := cppIntCast time
  let minutes := roundToInt ((time - (hours : ℚ)) * 60)
  let hm := if minutes = 60 then (hours + 1, (0 : ℤ)) else (hours, minutes)
  localeNum hm.1 ++ " h " ++ argPad2 hm.2 ++ " m"

/-- formatter.cpp lines 64..73 (formatMinutesHoursDays).  Note: unlike the
two functions above, the source applies no 60-to-0 carry here. -/
def formatMinutesHoursDays (localeNum : ℤ → String) (time : ℚ) : String :=
  let days := Int.tdiv (cppIntCast time) 24
  let hours := cppIntCast time - days * 24
  let minutes := roundToInt ((time - (⌊time⌋ : ℚ)) * 60)
  localeNum days ++ ":" ++ argPad2 hours ++ ":" ++ argPad2 minutes

/-- formatter.cpp lines 75..98 (formatMinutesHoursDaysLong).  The retval
accumulation mirrors the source; no 60-to-0 carry is applied. -/
def formatMinutesHoursDaysLong (localeNum : ℤ → String) (time : ℚ) : String :=
  let days := Int.tdiv (cppIntCast time) 24
  let hours := cppIntCast time - days * 24
  let minutes := roundToInt ((time - (⌊time⌋ : ℚ)) * 60)
  let retval := if 0 < days then localeNum days ++ " d" else ""
  let retval2 :=
    if 0 < hours then
      (if retval = "" then retval ++ localeNum hours ++ " h"
       else retval ++ " " ++ argPad2 hours ++ " h")
    else retval
  if retval2 = "" then retval2 ++ localeNum minutes ++ " m"
  else retval2 ++ " " ++ argPad2 minutes ++ " m"

/-- formatter.cpp lines 116..125 (formatDate).  `renderShort` is the locale
short date-time rendering of the UTC instant and `platformOk` the QDateTime
validity test (isValid and not isNull), both modelled from the spec as
abstract parameters. -/
def formatDate (renderShort : ℤ → String) (platformOk : ℤ → Bool)
    (timeT : ℤ) : String :=
  if 0 < timeT ∧ platformOk timeT = true then renderShort timeT
  else "Invalid date"

/-- formatter.cpp lines 127..137 (formatDateLong): on the valid path the
locale long rendering has every occurrence of the "UTC" token removed via
QString::replace. -/
def formatDateLong (renderLong : ℤ → String) (platformOk : ℤ → Bool)
    (timeT : ℤ) : String :=
  if 0 < timeT ∧ platformOk timeT = true then
    String.mk (removeUTC (renderLong timeT).data)
  else "Invalid date"

/-- Reading of claim C8: only a trailing "UTC" token is stripped from the
rendering. -/
def stripTrailingUTC (s : String) : String :=
  if endsWithL s.data ['U', 'T', 'C'] then
    String.mk (s.data.take (s.data.length - 3))
  else s

/-- formatter.cpp lines 139..153 (formatElapsed).  The input is the elapsed
millisecond count of the timer (a non-negative integer); `localeNum` is the
locale digit shaping of %L1. -/
def formatElapsed (localeNum : ℕ → String) (elapsedMs : ℕ) : String :=
  let secs := elapsedMs / 1000
  if secs < 60 then
    localeNum secs ++ " " ++ (if secs = 1 then "second" else "seconds")
  else
    let mins := secs / 60
    let secs2 := secs - mins * 60
    localeNum mins ++ " " ++ (if mins = 1 then "minute" else "minutes") ++
      " " ++ localeNum secs2 ++ " " ++ (if secs2 = 1 then "second" else "seconds")

/-- Description of the elapsed printer by the words of claim C9: truncate
to whole seconds, below one minute emit seconds with singular at one,
otherwise emit s/60 minutes and s mod 60 seconds with independently chosen
singular forms. -/
def formatElapsedSpec (localeNum : ℕ → String) (elapsedMs : ℕ) : String :=
  let s := elapsedMs / 1000
  if s < 60 then
    localeNum s ++ " " ++ (if s = 1 then "second" else "seconds")
  else
    localeNum (s / 60) ++ " " ++ (if s / 60 = 1 then "minute" else "minutes") ++
      " " ++ localeNum (s % 60) ++ " " ++ (if s % 60 = 1 then "second" else "seconds")

/-- formatter.cpp lines 160..180 (checkCoordinates).  The external
coordinate parser (atools::fs::util::fromAnyFormat together with the
Pos validity test), the unit formatter Unit::coords and the error-style
wrapper HtmlBuilder::errorMessage are not under src/ and are modelled from
the spec as abstract parameters; a parse that yields an invalid position is
`none`.  The returned pair is (boolean result, message slot). -/
def checkCoordinates {Pos : Type} (fromAnyFormat : String → Option Pos)
    (unitCoords : Pos → String) (errorMessage : String → String)
    (text : String) : Bool × String :=
  match fromAnyFormat text with
  | some pos =>
    let coords := unitCoords pos
    if coords ≠ text then (true, "Coordinates are valid: " ++ coords)
    else (true, "Coordinates are valid.")
  | none => (false, errorMessage "Coordinates are not valid.")

/-- formatter.cpp lines 182..190 (yearVariant). -/
def yearVariant (dateTimeFormat : String) : String :=
  if occursL ['y', 'y', 'y', 'y'] dateTimeFormat.data then
    String.mk (demoteYYYY dateTimeFormat.data)
  else if hasBYYB none dateTimeFormat.data then
    String.mk (promoteAllYY dateTimeFormat.data)
  else dateTimeFormat

/-- Reading of claim C4: the demotion branch is as in the source, but the
promotion branch replaces only the word-boundary occurrences of 'yy'. -/
def yearVariantClaim (dateTimeFormat : String) : String :=
  if occursL ['y', 'y', 'y', 'y'] dateTimeFormat.data then
    String.mk (demoteYYYY dateTimeFormat.data)
  else if hasBYYB none dateTimeFormat.data then
    String.mk (promoteBYY none dateTimeFormat.data)
  else dateTimeFormat

/-- Modelled from the spec: one named locale of the locale service, giving
its short, long and narrow date-time patterns
(QLocale::dateTimeFormat). -/
structure QLocaleM where
  shortFormat : String
  longFormat : String
  narrowFormat : String

/-- formatter.cpp lines 192..234 (initTranslateableTexts).  `locale` is the
system locale snapshot, `localeEn` the fixed English locale; the third
argument is the previous content of the module-level dateTimeFormats list,
cleared by the source before the rebuild.  The twelve appends and the
zone-variant loop mirror the source statement by statement. -/
def initTranslateableTexts (locale localeEn : QLocaleM)
    (dateTimeFormats : List String) : List String :=
  let cleared : List String := []
  let d1 := cleared ++ [locale.shortFormat]
  let d2 := d1 ++ [locale.longFormat]
  let d3 := d2 ++ [locale.narrowFormat]
  let d4 := d3 ++ [yearVariant locale.shortFormat]
  let d5 := d4 ++ [yearVariant locale.longFormat]
  let d6 := d5 ++ [yearVariant locale.narrowFormat]
  let d7 := d6 ++ [localeEn.shortFormat]
  let d8 := d7 ++ [localeEn.longFormat]
  let d9 := d8 ++ [localeEn.narrowFormat]
  let d10 := d9 ++ [yearVariant localeEn.shortFormat]
  let d11 := d10 ++ [yearVariant localeEn.longFormat]
  let d12 := d11 ++ [yearVariant localeEn.narrowFormat]
  let temp := d12
  temp.foldl
    (fun acc t =>
      if qtEndsWith t "t" then acc else acc ++ [t ++ " t", t ++ "t"])
    d12

/-- The twelve base patterns built by initTranslateableTexts before the
zone-variant loop, in insertion order. -/
def basePatterns (locale localeEn : QLocaleM) : List String :=
  [locale.shortFormat, locale.longFormat, locale.narrowFormat,
   yearVariant locale.shortFormat, yearVariant locale.longFormat,
   yearVariant locale.narrowFormat,
   localeEn.shortFormat, localeEn.longFormat, localeEn.narrowFormat,
   yearVariant localeEn.shortFormat, yearVariant localeEn.longFormat,
   yearVariant localeEn.narrowFormat]

/-- formatter.cpp lines 236..255 (readDateTime).  `localeParse` is the
system locale parse service QLocale::toDateTime, modelled from the spec as
an abstract parameter mapping a text and a pattern to a valid instant or
none; `dateTimeFormats` is the module-level catalogue.  The loop keeps the
result of the first pattern that validates and otherwise ends with the
invalid QDateTime it started from, i.e. the first some of the walk, none
when every pattern fails. -/
def readDateTime (localeParse : String → String → Option ℤ)
    (dateTimeFormats : List String) (str : String) : Option ℤ :=
  dateTimeFormats.findSome? (fun format => localeParse format (simplified str))

/-! Helper lemmas about QString::simplified. -/

theorem goodRun_tail (c : Char) (l : List Char) (h : goodRun (c :: l) = true) :
    goodRun l = true := by
  cases l with
  | nil => rfl
  | cons d r =>
    rw [goodRun] at h
    exact (Bool.and_eq_true_iff.mp h).2

theorem goodRun_head_not_spc (d : Char) (r : List Char)
    (h : goodRun (d :: r) = true) (hd : d ≠ ' ') : isSpc d = false := by
  cases r with
  | nil =>
    rw [goodRun] at h
    simpa using h
  | cons e r2 =>
    rw [goodRun] at h
    rcases Bool.or_eq_true_iff.mp (Bool.and_eq_true_iff.mp h).1 with h1 | h1
    · simpa using h1
    · exact absurd (by simpa using (Bool.and_eq_true_iff.mp h1).1) hd

theorem goodRun_spc_head (r : List Char) (h : goodRun (' ' :: r) = true) :
    ∃ e r2, r = e :: r2 ∧ isSpc e = false ∧ goodRun r = true := by
  cases r with
  | nil =>
    rw [goodRun, isSpc] at h
    simp at h
  | cons e r2 =>
    rw [goodRun] at h
    have h1 := (Bool.and_eq_true_iff.mp h).1
    have h2 := (Bool.and_eq_true_iff.mp h).2
    rcases Bool.or_eq_true_iff.mp h1 with h3 | h3
    · rw [show isSpc ' ' = true from rfl] at h3
      simp at h3
    · exact ⟨e, r2, rfl, by simpa using (Bool.and_eq_true_iff.mp h3).2, h2⟩

theorem simpAux_cons_spc (c : Char) (cs : List Char) (hc : isSpc c = true)
    (d : Char) (r : List Char) (h : simpAux cs = d :: r) :
    simpAux (c :: cs) = if d = ' ' then d :: r else ' ' :: d :: r := by
  rw [simpAux, if_pos hc, h]

theorem simpAux_cons_spc_nil (c : Char) (cs : List Char) (hc : isSpc c = true)
    (h : simpAux cs = []) : simpAux (c :: cs) = [] := by
  rw [simpAux, if_pos hc, h]

theorem simplifiedL_of_simpAux (l : List Char) (c : Char) (r : List Char)
    (h : simpAux l = c :: r) :
    simplifiedL l = if c = ' ' then r else c :: r := by
  rw [simplifiedL, h]

theorem simpAux_good (l : List Char) : goodRun (simpAux l) = true := by
  induction l with
  | nil => rfl
  | cons c cs ih =>
    by_cases hc : isSpc c = true
    · cases hm : simpAux cs with
      | nil => rw [simpAux_cons_spc_nil c cs hc hm]; rfl
      | cons d r =>
        rw [hm] at ih
        rw [simpAux_cons_spc c cs hc d r hm]
        by_cases hd : d = ' '
        · rw [if_pos hd]; exact ih
        · rw [if_neg hd]
          have hnd := goodRun_head_not_spc d r ih hd
          rw [goodRun]
          simp [hnd, ih]
    · rw [simpAux, if_neg hc]
      cases hm : simpAux cs with
      | nil =>
        rw [goodRun]
        simpa using hc
      | cons d r =>
        rw [hm] at ih
        rw [goodRun]
        simp [hc, ih]

theorem simpAux_fixed (l : List Char) (h : goodRun l = true) : simpAux l = l := by
  induction l with
  | nil => rfl
  | cons c cs ih =>
    by_cases hc : isSpc c = true
    · have hcsp : c = ' ' := by
        cases cs with
        | nil =>
          rw [goodRun] at h
          rw [hc] at h
          simp at h
        | cons e r =>
          rw [goodRun] at h
          rcases Bool.or_eq_true_iff.mp (Bool.and_eq_true_iff.mp h).1 with h1 | h1
          · rw [hc] at h1; simp at h1
          · exact by simpa using (Bool.and_eq_true_iff.mp h1).1
      subst hcsp
      obtain ⟨e, r2, hr, he, hg⟩ := goodRun_spc_head cs h
      have hene : e ≠ ' ' := by
        intro hcontra
        rw [hcontra] at he
        exact absurd he (by simp [isSpc])
      have hcs : simpAux cs = e :: r2 := by rw [ih hg, hr]
      rw [simpAux_cons_spc ' ' cs hc e r2 hcs, if_neg hene, hr]
    · rw [simpAux, if_neg hc, ih (goodRun_tail c cs h)]

theorem simplifiedL_idem (l : List Char) :
    simplifiedL (simplifiedL l) = simplifiedL l := by
  have hg := simpAux_good l
  cases hm : simpAux l with
  | nil =>
    have h1 : simplifiedL l = [] := by rw [simplifiedL, hm]
    rw [h1]
    rfl
  | cons c r =>
    rw [hm] at hg
    have h1 := simplifiedL_of_simpAux l c r hm
    by_cases hc : c = ' '
    · rw [if_pos hc] at h1
      subst hc
      obtain ⟨e, r2, hr, he, hgr⟩ := goodRun_spc_head r hg
      have hene : e ≠ ' ' := by
        intro hcontra
        rw [hcontra] at he
        exact absurd he (by simp [isSpc])
      have h2 : simpAux r = e :: r2 := by rw [simpAux_fixed r hgr, hr]
      rw [h1, simplifiedL_of_simpAux r e r2 h2, if_neg hene, hr]
    · rw [if_neg hc] at h1
      have h2 : simpAux (c :: r) = c :: r := simpAux_fixed (c :: r) hg
      rw [h1, simplifiedL_of_simpAux (c :: r) c r h2, if_neg hc]

theorem simplified_idem (s : String) :
    simplified (simplified s) = simplified s := by
  show String.mk (simplifiedL (simplifiedL s.data)) = String.mk (simplifiedL s.data)
  rw [simplifiedL_idem]

/-! Helper lemmas about the catalogue walk. -/

theorem findSome?_first_match {α β : Type} (p : α → Option β)
    (pre : List α) (x : α) (post : List α) (t : β)
    (hpre : ∀ f ∈ pre, p f = none) (hx : p x = some t) :
    (pre ++ x :: post).findSome? p = some t := by
  induction pre with
  | nil => simp [List.findSome?_cons, hx]
  | cons a pre2 ih =>
    have ha : p a = none := hpre a (by simp)
    rw [List.cons_append, List.findSome?_cons, ha]
    exact ih (fun f hf => hpre f (by simp [hf]))

/-! Helper lemmas about the UTC replacement. -/

theorem ne_of_startsWith_utc_false (c : Char) (cs : List Char)
    (h : startsWithL ['U', 'T', 'C'] (c :: cs) = false) :
    ∀ rest, c :: cs = 'U' :: 'T' :: 'C' :: rest → False := by
  intro rest heq
  rw [heq] at h
  have ht : startsWithL ['U', 'T', 'C'] ('U' :: 'T' :: 'C' :: rest) = true := rfl
  rw [ht] at h
  exact Bool.noConfusion h

theorem removeUTC_cons_ne (c : Char) (cs : List Char)
    (h : ∀ rest, c :: cs = 'U' :: 'T' :: 'C' :: rest → False) :
    removeUTC (c :: cs) = c :: removeUTC cs := by
  rw [removeUTC.eq_def]
  split
  · rename_i rest heq
    exact absurd heq (h rest)
  · rename_i c2 cs2 hg heq
    injection heq with h1 h2
    subst h1
    subst h2
    rfl
  · rename_i heq
    exact List.noConfusion heq

theorem removeUTC_no_occurs (l : List Char)
    (h : occursL ['U', 'T', 'C'] l = false) : removeUTC l = l := by
  induction l with
  | nil => rfl
  | cons c cs ih =>
    rw [occursL, Bool.or_eq_false_iff] at h
    rw [removeUTC_cons_ne c cs (ne_of_startsWith_utc_false c cs h.1), ih h.2]

theorem take_le_two_utc (k : ℕ) (hk : k ≤ 2) :
    List.take k ['U', 'T'] = List.take k ['U', 'T', 'C'] := by
  interval_cases k <;> rfl

theorem startsWithL_utc_ext (c : Char) (s : List Char) :
    startsWithL ['U', 'T', 'C'] (c :: (s ++ ['U', 'T'])) =
      startsWithL ['U', 'T', 'C'] (c :: (s ++ ['U', 'T', 'C'])) := by
  rw [startsWithL, startsWithL]
  have h3 : List.take (List.length ['U', 'T', 'C']) (c :: (s ++ ['U', 'T'])) =
      List.take (List.length ['U', 'T', 'C']) (c :: (s ++ ['U', 'T', 'C'])) := by
    show List.take 3 (c :: (s ++ ['U', 'T'])) = List.take 3 (c :: (s ++ ['U', 'T', 'C']))
    rw [show (3 : ℕ) = 2 + 1 from rfl, List.take_succ_cons, List.take_succ_cons,
      List.take_append_eq_append_take, List.take_append_eq_append_take,
      take_le_two_utc (2 - s.length) (by omega)]
  rw [h3]

theorem removeUTC_trailing (s : List Char)
    (h : occursL ['U', 'T', 'C'] (s ++ ['U', 'T']) = false) :
    removeUTC (s ++ ['U', 'T', 'C']) = s := by
  induction s with
  | nil => rfl
  | cons c s2 ih =>
    rw [List.cons_append] at h
    rw [occursL, Bool.or_eq_false_iff] at h
    have h1 : startsWithL ['U', 'T', 'C'] (c :: (s2 ++ ['U', 'T', 'C'])) = false := by
      rw [← startsWithL_utc_ext]
      exact h.1
    rw [List.cons_append,
      removeUTC_cons_ne c (s2 ++ ['U', 'T', 'C']) (ne_of_startsWith_utc_false _ _ h1),
      ih h.2]

/-! Helper lemmas about the year-variant replacements. -/

theorem promoteAllYY_cons_ne (c : Char) (cs : List Char)
    (h : ∀ rest, c = 'y' → cs = 'y' :: rest → False) :
    promoteAllYY (c :: cs) = c :: promoteAllYY cs := by
  rw [promoteAllYY.eq_def]
  split
  · rename_i rest heq
    injection heq with e1 e2
    exact (h rest e1 e2).elim
  · rename_i c2 cs2 hg heq
    injection heq with h1 h2
    subst h1
    subst h2
    rfl
  · rename_i heq
    exact List.noConfusion heq

theorem promoteBYY_cons_ne (prev : Option Char) (c : Char) (cs : List Char)
    (h : ∀ rest, c = 'y' → cs = 'y' :: rest → False) :
    promoteBYY prev (c :: cs) = c :: promoteBYY (some c) cs := by
  rw [promoteBYY.eq_def]
  split
  · rename_i rest heq
    injection heq with e1 e2
    exact (h rest e1 e2).elim
  · rename_i c2 cs2 hg heq
    injection heq with h1 h2
    subst h1
    subst h2
    rfl
  · rename_i heq
    exact List.noConfusion heq

theorem allBYY_cons_ne (prev : Option Char) (c : Char) (cs : List Char)
    (h : ∀ rest, c = 'y' → cs = 'y' :: rest → False) :
    allBYY prev (c :: cs) = allBYY (some c) cs := by
  rw [allBYY.eq_def]
  split
  · rename_i rest heq
    injection heq with e1 e2
    exact (h rest e1 e2).elim
  · rename_i c2 cs2 hg heq
    injection heq with h1 h2
    subst h1
    subst h2
    rfl
  · rename_i heq
    exact List.noConfusion heq

theorem promoteBYY_eq_all (prev : Option Char) (l : List Char)
    (h : allBYY prev l = true) : promoteBYY prev l = promoteAllYY l := by
  refine allBYY.induct
    (motive := fun prev l =>
      allBYY prev l = true → promoteBYY prev l = promoteAllYY l)
    ?_ ?_ ?_ prev l h
  · intro prev2 rest ih hall
    rw [allBYY, Bool.and_eq_true_iff] at hall
    rw [promoteBYY, if_pos hall.1, promoteAllYY, ih hall.2]
  · intro prev2 c cs hg ih hall
    rw [allBYY_cons_ne prev2 c cs hg] at hall
    rw [promoteBYY_cons_ne prev2 c cs hg, promoteAllYY_cons_ne c cs hg, ih hall]
  · intro prev2 hall
    rfl

/-! Helper lemmas for the catalogue construction. -/

theorem foldl_zone_append {α : Type} (p : α → Bool) (g : α → List α)
    (l : List α) : ∀ (acc : List α),
    l.foldl (fun a t => if p t = true then a else a ++ g t) acc =
      acc ++ (l.filter (fun t => !p t)).flatMap g := by
  induction l with
  | nil => intro acc; simp
  | cons t l2 ih =>
    intro acc
    rw [List.foldl_cons, List.filter_cons]
    by_cases hp : p t = true
    · rw [if_pos hp, ih acc]
      simp [hp]
    · rw [if_neg hp, ih (acc ++ g t)]
      have hq : (!p t) = true := by simp [Bool.not_eq_true'] at hp ⊢; exact hp
      simp [hq, List.append_assoc]

theorem append_ne_empty_right (a b : String) (hb : b.data ≠ []) :
    a ++ b ≠ "" := by
  intro h
  apply hb
  have hdata : a.data ++ b.data = ([] : List Char) := congrArg String.data h
  exact (List.append_eq_nil.mp hdata).2

/-! Helper lemmas for minute rounding. -/

theorem cppIntCast_of_nonneg (q : ℚ) (h : 0 ≤ q) : cppIntCast q = ⌊q⌋ := by
  rw [cppIntCast, if_pos h]

theorem frac_nonneg_lt_one (q : ℚ) :
    0 ≤ q - (⌊q⌋ : ℚ) ∧ q - (⌊q⌋ : ℚ) < 1 :=
  ⟨by linarith [Int.floor_le q], by linarith [Int.lt_floor_add_one q]⟩

theorem roundToInt_minutes (x : ℚ) (h0 : 0 ≤ x) (h1 : x < 60) :
    0 ≤ roundToInt x ∧ roundToInt x ≤ 60 ∧
      (roundToInt x = 60 ↔ 119 / 2 ≤ x) := by
  rw [roundToInt, if_pos h0]
  refine ⟨Int.le_floor.mpr (by push_cast; linarith), ?_, ?_⟩
  · have h2 : (⌊x + 1 / 2⌋ : ℤ) < 61 := Int.floor_lt.mpr (by push_cast; linarith)
    omega
  · rw [Int.floor_eq_iff]
    constructor
    · rintro ⟨ha, hb⟩
      push_cast at ha
      linarith
    · intro ha
      constructor
      · push_cast
        linarith
      · push_cast
        linarith

/-! Claim theorems. -/

/-- Claim C1: readDateTime first collapses interior whitespace runs and
trims the ends, then tries the catalogue patterns in insertion order under
the system locale and returns the instant of the first pattern that
validates; when no pattern validates, when the catalogue has not been
initialized (is empty), or when the input is empty or a single space (and
the locale service rejects the empty text), it returns the invalid-instant
sentinel none; the total model cannot raise. -/
theorem readDateTime_spec_C1 (localeParse : String → String → Option ℤ)
    (cat : List String) (str : String) :
    readDateTime localeParse cat str =
        readDateTime localeParse cat (simplified str)
    ∧ (∀ pre fmt post t, cat = pre ++ fmt :: post →
        (∀ f ∈ pre, localeParse f (simplified str) = none) →
        localeParse fmt (simplified str) = some t →
        readDateTime localeParse cat str = some t)
    ∧ ((∀ f ∈ cat, localeParse f (simplified str) = none) →
        readDateTime localeParse cat str = none)
    ∧ readDateTime localeParse [] str = none
    ∧ ((∀ f, localeParse f "" = none) →
        readDateTime localeParse cat "" = none ∧
          readDateTime localeParse cat " " = none) := by
  refine ⟨?_, ?_, ?_, rfl, ?_⟩
  · rw [readDateTime, readDateTime, simplified_idem]
  · intro pre fmt post t hcat hpre hfmt
    rw [readDateTime, hcat]
    exact findSome?_first_match _ pre fmt post t hpre hfmt
  · intro hall
    rw [readDateTime]
    exact List.findSome?_eq_none_iff.mpr hall
  · intro hnone
    have he : simplified "" = "" := rfl
    have hs : simplified " " = "" := rfl
    constructor
    · rw [readDateTime, he]
      exact List.findSome?_eq_none_iff.mpr (fun f _ => hnone f)
    · rw [readDateTime, hs]
      exact List.findSome?_eq_none_iff.mpr (fun f _ => hnone f)

/-- Witness for C1 at concrete inputs: a catalogue of two patterns where
the second validates the whitespace-normalized text, and the single-space
input under an all-rejecting locale. -/
theorem readDateTime_spec_C1_witness :
    readDateTime (fun fmt s => if fmt = "F" ∧ s = "a b" then some 5 else none)
        ["G", "F"] " a  b " = some 5
    ∧ readDateTime (fun _ _ => (none : Option ℤ)) ["G"] " " = none := by
  constructor
  · exact (readDateTime_spec_C1
      (fun fmt s => if fmt = "F" ∧ s = "a b" then some 5 else none)
      ["G", "F"] " a  b ").2.1 ["G"] "F" [] 5 rfl (by decide) (by decide)
  · exact ((readDateTime_spec_C1 (fun _ _ => (none : Option ℤ))
      ["G"] " ").2.2.2.2 (fun f => rfl)).2

/-- Claim C2: initTranslateableTexts populates the catalogue in exactly the
insertion order system short, long, narrow; their year variants; English
short, long, narrow; their year variants; then, for every entry not already
ending in the zone token, the two zone variants (with and without a
separating space), appended in that order; the catalogue is non-empty after
initialization. -/
theorem initTranslateableTexts_order_C2 (locale localeEn : QLocaleM)
    (prev : List String) :
    initTranslateableTexts locale localeEn prev =
      basePatterns locale localeEn ++
        ((basePatterns locale localeEn).filter
            (fun t => !qtEndsWith t "t")).flatMap
          (fun t => [t ++ " t", t ++ "t"])
    ∧ initTranslateableTexts locale localeEn prev ≠ [] := by
  have h0 : initTranslateableTexts locale localeEn prev =
      (basePatterns locale localeEn).foldl
        (fun acc t =>
          if qtEndsWith t "t" = true then acc else acc ++ [t ++ " t", t ++ "t"])
        (basePatterns locale localeEn) := rfl
  have h1 := foldl_zone_append (fun t => qtEndsWith t "t")
    (fun t => [t ++ " t", t ++ "t"]) (basePatterns locale localeEn)
    (basePatterns locale localeEn)
  rw [h0, h1]
  refine ⟨rfl, ?_⟩
  simp [basePatterns]

/-- Claim C10: initTranslateableTexts clears the catalogue before the
rebuild, so repeated calls are idempotent, the result does not depend on
the previous catalogue state, and repeated calls never grow the
catalogue. -/
theorem initTranslateableTexts_idem_C10 (locale localeEn : QLocaleM)
    (prev prev2 : List String) :
    initTranslateableTexts locale localeEn
        (initTranslateableTexts locale localeEn prev) =
      initTranslateableTexts locale localeEn prev
    ∧ initTranslateableTexts locale localeEn prev =
        initTranslateableTexts locale localeEn prev2
    ∧ (initTranslateableTexts locale localeEn
          (initTranslateableTexts locale localeEn prev)).length =
        (initTranslateableTexts locale localeEn prev).length :=
  ⟨rfl, rfl, rfl⟩

/-- Claim C6: checkCoordinates returns true exactly when the external
coordinate parser yields a valid position; on success the message slot
receives "Coordinates are valid: canonical" when the canonical rendering
differs from the input and "Coordinates are valid." when it is identical;
on failure it returns false with the error-styled "Coordinates are not
valid."; the total model cannot raise. -/
theorem checkCoordinates_spec_C6 {Pos : Type} (fromAnyFormat : String → Option Pos)
    (unitCoords : Pos → String) (errorMessage : String → String)
    (text : String) :
    ((checkCoordinates fromAnyFormat unitCoords errorMessage text).1 = true ↔
      (fromAnyFormat text).isSome = true)
    ∧ (∀ pos, fromAnyFormat text = some pos → unitCoords pos ≠ text →
        checkCoordinates fromAnyFormat unitCoords errorMessage text =
          (true, "Coordinates are valid: " ++ unitCoords pos))
    ∧ (∀ pos, fromAnyFormat text = some pos → unitCoords pos = text →
        checkCoordinates fromAnyFormat unitCoords errorMessage text =
          (true, "Coordinates are valid."))
    ∧ (fromAnyFormat text = none →
        checkCoordinates fromAnyFormat unitCoords errorMessage text =
          (false, errorMessage "Coordinates are not valid.")) := by
  refine ⟨?_, ?_, ?_, ?_⟩
  · cases h : fromAnyFormat text with
    | none => simp [checkCoordinates, h]
    | some pos =>
      simp only [checkCoordinates, h, Option.isSome_some]
      split
      · simp
      · simp
  · intro pos hp hne
    simp only [checkCoordinates, hp]
    rw [if_pos hne]
  · intro pos hp heq
    simp only [checkCoordinates, hp]
    rw [if_neg (fun hcon => hcon heq)]
  · intro hp
    simp only [checkCoordinates, hp]

/-- Witness for C6 at concrete inputs covering the three message cases. -/
theorem checkCoordinates_spec_C6_witness :
    checkCoordinates (fun t => if t = "N48 E11" then some () else none)
        (fun _ => "canon") (fun m => "<err>" ++ m) "N48 E11" =
      (true, "Coordinates are valid: " ++ "canon")
    ∧ checkCoordinates (fun t => if t = "canon" then some () else none)
        (fun _ => "canon") (fun m => "<err>" ++ m) "canon" =
      (true, "Coordinates are valid.")
    ∧ checkCoordinates (fun t => if t = "N48 E11" then some () else none)
        (fun _ => "canon") (fun m => "<err>" ++ m) "bad" =
      (false, "<err>" ++ "Coordinates are not valid.") := by
  refine ⟨?_, ?_, ?_⟩
  · exact (checkCoordinates_spec_C6 (fun t => if t = "N48 E11" then some () else none)
      (fun _ => "canon") (fun m => "<err>" ++ m) "N48 E11").2.1 () (by decide) (by decide)
  · exact (checkCoordinates_spec_C6 (fun t => if t = "canon" then some () else none)
      (fun _ => "canon") (fun m => "<err>" ++ m) "canon").2.2.1 () (by decide) (by decide)
  · exact (checkCoordinates_spec_C6 (fun t => if t = "N48 E11" then some () else none)
      (fun _ => "canon") (fun m => "<err>" ++ m) "bad").2.2.2 (by decide)

/-- Claim C7: for every timestamp at most zero and for every timestamp the
platform validity test rejects, both the short and the long date renderer
return the literal "Invalid date"; the total model cannot raise or return
a partial rendering. -/
theorem formatDate_invalid_C7 (renderShort renderLong : ℤ → String)
    (platformOk : ℤ → Bool) (timeT : ℤ) :
    (timeT ≤ 0 →
      formatDate renderShort platformOk timeT = "Invalid date" ∧
        formatDateLong renderLong platformOk timeT = "Invalid date")
    ∧ (platformOk timeT = false →
      formatDate renderShort platformOk timeT = "Invalid date" ∧
        formatDateLong renderLong platformOk timeT = "Invalid date") := by
  constructor
  · intro h
    have hne : ¬(0 < timeT ∧ platformOk timeT = true) :=
      fun hc => absurd hc.1 (not_lt.mpr h)
    exact ⟨by rw [formatDate, if_neg hne], by rw [formatDateLong, if_neg hne]⟩
  · intro h
    have hne : ¬(0 < timeT ∧ platformOk timeT = true) := by
      intro hc
      rw [h] at hc
      exact Bool.noConfusion hc.2
    exact ⟨by rw [formatDate, if_neg hne], by rw [formatDateLong, if_neg hne]⟩

/-- Witness for C7 at the concrete timestamps 0 (non-positive) and 5 under
a rejecting platform. -/
theorem formatDate_invalid_C7_witness :
    formatDate (fun _ => "short") (fun _ => true) 0 = "Invalid date"
    ∧ formatDateLong (fun _ => "long") (fun _ => false) 5 = "Invalid date" :=
  ⟨((formatDate_invalid_C7 (fun _ => "short") (fun _ => "long")
      (fun _ => true) 0).1 (by omega)).1,
    ((formatDate_invalid_C7 (fun _ => "short") (fun _ => "long")
      (fun _ => false) 5).2 rfl).2⟩

/-- Claim C9: formatElapsed truncates the milliseconds to whole seconds s;
below one minute it emits "s second(s)" with the singular exactly at one,
otherwise s div 60 minutes followed by s mod 60 seconds with singular and
plural chosen independently; 1000 ms renders as "1 second" and 125000 ms as
"2 minutes 5 seconds". -/
theorem formatElapsed_spec_C9 (localeNum : ℕ → String) (elapsedMs : ℕ) :
    formatElapsed localeNum elapsedMs = formatElapsedSpec localeNum elapsedMs
    ∧ formatElapsed (fun n => toString n) 1000 = "1 second"
    ∧ formatElapsed (fun n => toString n) 125000 = "2 minutes 5 seconds" := by
  refine ⟨?_, by decide, by decide⟩
  simp only [formatElapsed, formatElapsedSpec]
  by_cases h : elapsedMs / 1000 < 60
  · rw [if_pos h, if_pos h]
  · rw [if_neg h, if_neg h]
    have h2 : elapsedMs / 1000 - elapsedMs / 1000 / 60 * 60 =
        elapsedMs / 1000 % 60 := by omega
    rw [h2]

/-- Counterexample to claim C3 as stated: at 1.9999 hours the D:HH:MM
formatter renders the minute field as 60 (the source applies no 60-to-0
carry in the two day-split formatters), instead of the carried "0:02:00"
the claim requires. -/
theorem formatMinutesHoursDays_no_carry_cex :
    formatMinutesHoursDays (fun i => toString i) ((19999 : ℚ) / 10000) =
      "0:01:60"
    ∧ "0:01:60" ≠ "0:02:00" := by
  constructor
  · have e1 : cppIntCast ((19999 : ℚ) / 10000) = 1 := by
      rw [cppIntCast, if_pos (by norm_num)]
      norm_num
    have e2 : (⌊(19999 : ℚ) / 10000⌋ : ℤ) = 1 := by norm_num
    have e3 : roundToInt (((19999 : ℚ) / 10000 - ((1 : ℤ) : ℚ)) * 60) = 60 := by
      rw [roundToInt, if_pos (by norm_num)]
      norm_num [Int.floor_eq_iff]
    simp only [formatMinutesHoursDays, e1, e2, e3]
    decide
  · decide

/-- Claim C3 (amended): for h at least 0, in all four duration formatters
the minutes are round half away from zero of the fractional hour times 60;
the 60-to-0 carry (hour incremented, minutes reset, exactly when the
unrounded minute is at least 59.5) is applied only in the two hour-only
formatters, whose minute value therefore lies in [0, 59]; the two day-split
formatters render the uncarried value, which lies in [0, 60] and reaches 60
exactly when the unrounded minute is at least 59.5. -/
theorem duration_minute_carry_amended (localeNum : ℤ → String) (time : ℚ)
    (h : 0 ≤ time) :
    (0 ≤ uncarriedMinutes time ∧ uncarriedMinutes time ≤ 60)
    ∧ (uncarriedMinutes time = 60 ↔
        119 / 2 ≤ (time - (cppIntCast time : ℚ)) * 60)
    ∧ (formatMinutesHours localeNum time =
        if uncarriedMinutes time = 60 then
          localeNum (cppIntCast time + 1) ++ ":" ++ argPad2 0
        else localeNum (cppIntCast time) ++ ":" ++
          argPad2 (uncarriedMinutes time))
    ∧ (formatMinutesHoursLong localeNum time =
        if uncarriedMinutes time = 60 then
          localeNum (cppIntCast time + 1) ++ " h " ++ argPad2 0 ++ " m"
        else localeNum (cppIntCast time) ++ " h " ++
          argPad2 (uncarriedMinutes time) ++ " m")
    ∧ (formatMinutesHoursDays localeNum time =
        localeNum (Int.tdiv (cppIntCast time) 24) ++ ":" ++
          argPad2 (cppIntCast time - Int.tdiv (cppIntCast time) 24 * 24) ++
          ":" ++ argPad2 (uncarriedMinutes time))
    ∧ (formatMinutesHoursDaysLong localeNum time =
        if 0 < Int.tdiv (cppIntCast time) 24 then
          (if 0 < cppIntCast time - Int.tdiv (cppIntCast time) 24 * 24 then
            localeNum (Int.tdiv (cppIntCast time) 24) ++ " d" ++ " " ++
              argPad2 (cppIntCast time - Int.tdiv (cppIntCast time) 24 * 24) ++
              " h" ++ " " ++ argPad2 (uncarriedMinutes time) ++ " m"
          else
            localeNum (Int.tdiv (cppIntCast time) 24) ++ " d" ++ " " ++
              argPad2 (uncarriedMinutes time) ++ " m")
        else
          (if 0 < cppIntCast time - Int.tdiv (cppIntCast time) 24 * 24 then
            localeNum (cppIntCast time - Int.tdiv (cppIntCast time) 24 * 24) ++
              " h" ++ " " ++ argPad2 (uncarriedMinutes time) ++ " m"
          else localeNum (uncarriedMinutes time) ++ " m")) := by
  have hfl : cppIntCast time = ⌊time⌋ := cppIntCast_of_nonneg time h
  have hfr := frac_nonneg_lt_one time
  have hx0 : 0 ≤ (time - (cppIntCast time : ℚ)) * 60 := by
    rw [hfl]
    nlinarith [hfr.1]
  have hx1 : (time - (cppIntCast time : ℚ)) * 60 < 60 := by
    rw [hfl]
    nlinarith [hfr.2]
  have hb := roundToInt_minutes _ hx0 hx1
  refine ⟨⟨hb.1, hb.2.1⟩, hb.2.2, ?_, ?_, ?_, ?_⟩
  · simp only [formatMinutesHours, uncarriedMinutes]
    by_cases hc : roundToInt ((time - (cppIntCast time : ℚ)) * 60) = 60
    · rw [if_pos hc, if_pos hc]
    · rw [if_neg hc, if_neg hc]
  · simp only [formatMinutesHoursLong, uncarriedMinutes]
    by_cases hc : roundToInt ((time - (cppIntCast time : ℚ)) * 60) = 60
    · rw [if_pos hc, if_pos hc]
    · rw [if_neg hc, if_neg hc]
  · simp only [formatMinutesHoursDays, uncarriedMinutes, hfl]
  · have hmin : uncarriedMinutes time =
        roundToInt ((time - (⌊time⌋ : ℚ)) * 60) := by
      rw [uncarriedMinutes, hfl]
    rw [hmin]
    by_cases hd : 0 < Int.tdiv (cppIntCast time) 24
    · have hne1 : localeNum (Int.tdiv (cppIntCast time) 24) ++ " d" ≠ "" :=
        append_ne_empty_right _ _ (by decide)
      by_cases hh : 0 < cppIntCast time - Int.tdiv (cppIntCast time) 24 * 24
      · have hne2 : localeNum (Int.tdiv (cppIntCast time) 24) ++ " d" ++ " " ++
            argPad2 (cppIntCast time - Int.tdiv (cppIntCast time) 24 * 24) ++
            " h" ≠ "" := append_ne_empty_right _ _ (by decide)
        simp [formatMinutesHoursDaysLong, hd, hh, hne1, hne2]
      · simp [formatMinutesHoursDaysLong, hd, hh, hne1]
    · by_cases hh : 0 < cppIntCast time - Int.tdiv (cppIntCast time) 24 * 24
      · have hne2 :
            localeNum (cppIntCast time - Int.tdiv (cppIntCast time) 24 * 24) ++
            " h" ≠ "" := append_ne_empty_right _ _ (by decide)
        simp [formatMinutesHoursDaysLong, hd, hh, hne2]
      · simp [formatMinutesHoursDaysLong, hd, hh]

/-- Witness for the amended C3 at 1.5 hours with plain decimal shaping,
and at 1.9999 hours where the long day formatter renders the uncarried
minute value 60. -/
theorem duration_minute_carry_amended_witness :
    formatMinutesHours (fun i => toString i) ((3 : ℚ) / 2) = "1:30"
    ∧ formatMinutesHoursDaysLong (fun i => toString i) ((19999 : ℚ) / 10000) =
        "1 h 60 m" := by
  constructor
  · have h := (duration_minute_carry_amended (fun i => toString i) ((3 : ℚ) / 2)
      (by norm_num)).2.2.1
    have e1 : cppIntCast ((3 : ℚ) / 2) = 1 := by
      rw [cppIntCast, if_pos (by norm_num)]
      norm_num
    have e2 : uncarriedMinutes ((3 : ℚ) / 2) = 30 := by
      rw [uncarriedMinutes, e1, roundToInt, if_pos (by norm_num)]
      norm_num [Int.floor_eq_iff]
    rw [h, e2, if_neg (by omega), e1]
    decide
  · have h := (duration_minute_carry_amended (fun i => toString i)
      ((19999 : ℚ) / 10000) (by norm_num)).2.2.2.2.2
    have e1 : cppIntCast ((19999 : ℚ) / 10000) = 1 := by
      rw [cppIntCast, if_pos (by norm_num)]
      norm_num
    have e2 : uncarriedMinutes ((19999 : ℚ) / 10000) = 60 := by
      rw [uncarriedMinutes, e1, roundToInt, if_pos (by norm_num)]
      norm_num [Int.floor_eq_iff]
    rw [h, e1, e2]
    decide

/-- Counterexample to claim C4 as stated: on the pattern "ayy yy" the
word-boundary check succeeds (the standalone "yy"), but the source then
replaces every occurrence of "yy", including the non-boundary one inside
"ayy", producing "ayyyy yyyy" instead of the "ayy yyyy" that promotion of
only the boundary token would produce. -/
theorem yearVariant_boundary_cex :
    yearVariant "ayy yy" = "ayyyy yyyy"
    ∧ yearVariantClaim "ayy yy" = "ayy yyyy"
    ∧ ("ayyyy yyyy" : String) ≠ "ayy yyyy" := by
  refine ⟨by decide, by decide, by decide⟩

/-- Claim C4 (amended): yearVariant demotes every "yyyy" occurrence to
"yy" when one is present; otherwise, when some "yy" occurs at a word
boundary, it promotes every occurrence of "yy" (boundary or not) to
"yyyy"; when neither applies it returns the input unchanged.  When every
"yy" occurrence met by the scan is at word boundaries, this agrees with
the boundary-only promotion of the original claim. -/
theorem yearVariant_amended (fmt : String) :
    (occursL ['y', 'y', 'y', 'y'] fmt.data = true →
      yearVariant fmt = String.mk (demoteYYYY fmt.data))
    ∧ (occursL ['y', 'y', 'y', 'y'] fmt.data = false →
        hasBYYB none fmt.data = true →
        yearVariant fmt = String.mk (promoteAllYY fmt.data))
    ∧ (occursL ['y', 'y', 'y', 'y'] fmt.data = false →
        hasBYYB none fmt.data = false → yearVariant fmt = fmt)
    ∧ (allBYY none fmt.data = true →
        promoteAllYY fmt.data = promoteBYY none fmt.data ∧
          yearVariant fmt = yearVariantClaim fmt) := by
  refine ⟨?_, ?_, ?_, ?_⟩
  · intro h1
    rw [yearVariant, if_pos h1]
  · intro h1 h2
    rw [yearVariant, if_neg (by rw [h1]; exact Bool.noConfusion), if_pos h2]
  · intro h1 h2
    rw [yearVariant, if_neg (by rw [h1]; exact Bool.noConfusion),
      if_neg (by rw [h2]; exact Bool.noConfusion)]
  · intro hall
    have hpp := promoteBYY_eq_all none fmt.data hall
    refine ⟨hpp.symm, ?_⟩
    rw [yearVariant, yearVariantClaim]
    by_cases h1 : occursL ['y', 'y', 'y', 'y'] fmt.data = true
    · rw [if_pos h1, if_pos h1]
    · rw [if_neg h1, if_neg h1]
      by_cases h2 : hasBYYB none fmt.data = true
      · rw [if_pos h2, if_pos h2, hpp]
      · rw [if_neg h2, if_neg h2]

/-- Witness for the amended C4 on concrete patterns exercising all three
branches and the boundary-agreement case. -/
theorem yearVariant_amended_witness :
    yearVariant "dd.MM.yyyy" = String.mk (demoteYYYY "dd.MM.yyyy".data)
    ∧ yearVariant "d.M.yy" = String.mk (promoteAllYY "d.M.yy".data)
    ∧ yearVariant "MMM" = "MMM"
    ∧ yearVariant "d.M.yy" = yearVariantClaim "d.M.yy" :=
  ⟨(yearVariant_amended "dd.MM.yyyy").1 (by decide),
    (yearVariant_amended "d.M.yy").2.1 (by decide) (by decide),
    (yearVariant_amended "MMM").2.2.1 (by decide) (by decide),
    ((yearVariant_amended "d.M.yy").2.2.2 (by decide)).2⟩

/-- Claim C5: the long days/hours/minutes formatter emits only the non-zero
higher components (days first, then hours) and always emits minutes; the
first emitted component uses locale digit shaping (localeNum) and every
subsequent component is rendered two-digit zero-padded (argPad2); 25.25
renders as "1 d 01 h 15 m", 1.25 as "1 h 15 m", 0.25 as "15 m". -/
theorem formatMinutesHoursDaysLong_structure_C5 (localeNum : ℤ → String)
    (time : ℚ) :
    (formatMinutesHoursDaysLong localeNum time =
      if 0 < Int.tdiv (cppIntCast time) 24 then
        (if 0 < cppIntCast time - Int.tdiv (cppIntCast time) 24 * 24 then
          localeNum (Int.tdiv (cppIntCast time) 24) ++ " d" ++ " " ++
            argPad2 (cppIntCast time - Int.tdiv (cppIntCast time) 24 * 24) ++
            " h" ++ " " ++ argPad2 (roundToInt ((time - (⌊time⌋ : ℚ)) * 60)) ++
            " m"
        else
          localeNum (Int.tdiv (cppIntCast time) 24) ++ " d" ++ " " ++
            argPad2 (roundToInt ((time - (⌊time⌋ : ℚ)) * 60)) ++ " m")
      else
        (if 0 < cppIntCast time - Int.tdiv (cppIntCast time) 24 * 24 then
          localeNum (cppIntCast time - Int.tdiv (cppIntCast time) 24 * 24) ++
            " h" ++ " " ++ argPad2 (roundToInt ((time - (⌊time⌋ : ℚ)) * 60)) ++
            " m"
        else localeNum (roundToInt ((time - (⌊time⌋ : ℚ)) * 60)) ++ " m"))
    ∧ formatMinutesHoursDaysLong (fun i => toString i) ((101 : ℚ) / 4) =
        "1 d 01 h 15 m"
    ∧ formatMinutesHoursDaysLong (fun i => toString i) ((5 : ℚ) / 4) =
        "1 h 15 m"
    ∧ formatMinutesHoursDaysLong (fun i => toString i) ((1 : ℚ) / 4) =
        "15 m" := by
  refine ⟨?_, ?_, ?_, ?_⟩
  · by_cases hd : 0 < Int.tdiv (cppIntCast time) 24
    · have hne1 : localeNum (Int.tdiv (cppIntCast time) 24) ++ " d" ≠ "" :=
        append_ne_empty_right _ _ (by decide)
      by_cases hh : 0 < cppIntCast time - Int.tdiv (cppIntCast time) 24 * 24
      · have hne2 : localeNum (Int.tdiv (cppIntCast time) 24) ++ " d" ++ " " ++
            argPad2 (cppIntCast time - Int.tdiv (cppIntCast time) 24 * 24) ++
            " h" ≠ "" := append_ne_empty_right _ _ (by decide)
        simp [formatMinutesHoursDaysLong, hd, hh, hne1, hne2]
      · simp [formatMinutesHoursDaysLong, hd, hh, hne1]
    · by_cases hh : 0 < cppIntCast time - Int.tdiv (cppIntCast time) 24 * 24
      · have hne2 :
            localeNum (cppIntCast time - Int.tdiv (cppIntCast time) 24 * 24) ++
            " h" ≠ "" := append_ne_empty_right _ _ (by decide)
        simp [formatMinutesHoursDaysLong, hd, hh, hne2]
      · simp [formatMinutesHoursDaysLong, hd, hh]
  · have e1 : cppIntCast ((101 : ℚ) / 4) = 25 := by
      rw [cppIntCast, if_pos (by norm_num)]
      norm_num
    have e2 : (⌊(101 : ℚ) / 4⌋ : ℤ) = 25 := by norm_num
    have e3 : roundToInt (((101 : ℚ) / 4 - ((25 : ℤ) : ℚ)) * 60) = 15 := by
      rw [roundToInt, if_pos (by norm_num)]
      norm_num [Int.floor_eq_iff]
    simp only [formatMinutesHoursDaysLong, e1, e2, e3]
    decide
  · have e1 : cppIntCast ((5 : ℚ) / 4) = 1 := by
      rw [cppIntCast, if_pos (by norm_num)]
      norm_num
    have e2 : (⌊(5 : ℚ) / 4⌋ : ℤ) = 1 := by norm_num
    have e3 : roundToInt (((5 : ℚ) / 4 - ((1 : ℤ) : ℚ)) * 60) = 15 := by
      rw [roundToInt, if_pos (by norm_num)]
      norm_num [Int.floor_eq_iff]
    simp only [formatMinutesHoursDaysLong, e1, e2, e3]
    decide
  · have e1 : cppIntCast ((1 : ℚ) / 4) = 0 := by
      rw [cppIntCast, if_pos (by norm_num)]
      norm_num
    have e2 : (⌊(1 : ℚ) / 4⌋ : ℤ) = 0 := by norm_num
    have e3 : roundToInt (((1 : ℚ) / 4 - ((0 : ℤ) : ℚ)) * 60) = 15 := by
      rw [roundToInt, if_pos (by norm_num)]
      norm_num [Int.floor_eq_iff]
    simp only [formatMinutesHoursDaysLong, e1, e2, e3]
    decide

/-- Counterexample to claim C8 as stated: the source removes every "UTC"
occurrence (not only a trailing token).  With a rendering "UUTCTC", which
does not end in "UTC" so trailing-stripping would leave it unchanged, the
source produces "UTC": the output differs from the claimed trailing-strip
result and even ends with the zone label. -/
theorem formatDateLong_strip_cex :
    formatDateLong (fun _ => "UUTCTC") (fun _ => true) 1 = "UTC"
    ∧ stripTrailingUTC "UUTCTC" = "UUTCTC"
    ∧ ("UTC" : String) ≠ "UUTCTC"
    ∧ qtEndsWith "UTC" "UTC" = true := by
  refine ⟨by decide, by decide, by decide, by decide⟩

/-- Claim C8 (amended): for timestamps above zero accepted by the platform,
formatDateLong returns the locale long rendering with every occurrence of
the "UTC" token removed by a left-to-right non-overlapping scan; when the
rendering contains no "UTC" it is returned unchanged, and when its only
occurrence is the trailing token the result is the rendering with that
suffix stripped. -/
theorem formatDateLong_amended (renderLong : ℤ → String)
    (platformOk : ℤ → Bool) (timeT : ℤ) (h1 : 0 < timeT)
    (h2 : platformOk timeT = true) :
    formatDateLong renderLong platformOk timeT =
      String.mk (removeUTC (renderLong timeT).data)
    ∧ (occursL ['U', 'T', 'C'] (renderLong timeT).data = false →
        formatDateLong renderLong platformOk timeT = renderLong timeT)
    ∧ (∀ s : List Char, (renderLong timeT).data = s ++ ['U', 'T', 'C'] →
        occursL ['U', 'T', 'C'] (s ++ ['U', 'T']) = false →
        formatDateLong renderLong platformOk timeT = String.mk s) := by
  refine ⟨by rw [formatDateLong, if_pos ⟨h1, h2⟩], ?_, ?_⟩
  · intro hocc
    rw [formatDateLong, if_pos ⟨h1, h2⟩, removeUTC_no_occurs _ hocc]
  · intro s hs hocc
    rw [formatDateLong, if_pos ⟨h1, h2⟩, hs, removeUTC_trailing s hocc]

/-- Witness for the amended C8: a rendering with a single trailing "UTC"
token is stripped down to the prefix, and a rendering without the token is
unchanged. -/
theorem formatDateLong_amended_witness :
    formatDateLong (fun _ => "9:05 UTC") (fun _ => true) 7 =
      String.mk ['9', ':', '0', '5', ' ']
    ∧ formatDateLong (fun _ => "9:05") (fun _ => true) 7 = "9:05" :=
  ⟨(formatDateLong_amended (fun _ => "9:05 UTC") (fun _ => true) 7
      (by omega) rfl).2.2 ['9', ':', '0', '5', ' '] (by decide) (by decide),
    (formatDateLong_amended (fun _ => "9:05") (fun _ => true) 7
      (by omega) rfl).2.1 (by decide)⟩
